import Mathlib

/-!
Verification of `gpflow/experimental/check_shapes/parser.py`.

The Python source is shallowly embedded below.  Strings are modelled by
Lean `String` (a wrapper around `List Char`); Python slicing, stripping,
tab expansion and line splitting are reproduced on the character lists.
The lark parse trees consumed by the visitors are modelled by the `LarkTree`
type; the grammar engine itself is an external asset and appears as a
function parameter producing either a `LarkTree` or a structured
`UnexpectedInput` error.  Python exceptions are modelled with `Except`,
`assert` failures and dynamic-dispatch/unpacking errors with `Option`
(`none` = the Python code raises).  The process-wide caches become
explicit state that the entry points take and return.
-/

/-! ## Python string primitives -/

/-- The ASCII whitespace characters recognised by Python `str.strip` /
`str.lstrip` / `str.rstrip` (Python additionally strips some rare Unicode
whitespace, which the inputs of this module do not contain). -/
def pyIsSpace (c : Char) : Bool :=
  c = ' ' || c = '\t' || c = '\n' || c = '\r' || c = '\x0b' || c = '\x0c'

/-- Python `s[a:b]` for `0 ≤ a, b` (clamping, empty when `b ≤ a`). -/
def pySlice (s : String) (a b : Nat) : String :=
  ⟨(s.data.drop a).take (b - a)⟩

/-- Python `s[a:]` for `0 ≤ a`. -/
def pyDropFrom (s : String) (a : Nat) : String :=
  ⟨s.data.drop a⟩

/-- Python `s.lstrip()`. -/
def lstrip (s : String) : String :=
  ⟨s.data.dropWhile pyIsSpace⟩

/-- Python `s.rstrip()`. -/
def rstrip (s : String) : String :=
  ⟨(s.data.reverse.dropWhile pyIsSpace).reverse⟩

/-- Python truthiness of a string: empty strings are falsy. -/
def strIsEmpty (s : String) : Bool :=
  s.data.isEmpty

/-- Helper for `expandtabs`: `col` is the current column. -/
def expandtabsAux : List Char → Nat → List Char
  | [], _ => []
  | c :: cs, col =>
    if c = '\t' then
      List.replicate (8 - col % 8) ' ' ++ expandtabsAux cs (col + (8 - col % 8))
    else if c = '\n' || c = '\r' then
      c :: expandtabsAux cs 0
    else
      c :: expandtabsAux cs (col + 1)

/-- Python `s.expandtabs()` with the default tab size of 8: every tab is
replaced by spaces up to the next multiple-of-8 column; newlines reset
the column counter. -/
def expandtabs (s : String) : String :=
  ⟨expandtabsAux s.data 0⟩

/-- Helper for `splitlines`; `acc` holds the current line reversed. -/
def splitlinesAux : List Char → List Char → List (List Char)
  | [], acc => if acc.isEmpty then [] else [acc.reverse]
  | '\r' :: '\n' :: rest, acc => acc.reverse :: splitlinesAux rest []
  | '\n' :: rest, acc => acc.reverse :: splitlinesAux rest []
  | '\r' :: rest, acc => acc.reverse :: splitlinesAux rest []
  | c :: rest, acc => splitlinesAux rest (c :: acc)

/-- Python `s.splitlines()` restricted to the ASCII line boundaries
`\n`, `\r\n` and `\r` (the texts handled by this module contain no other
line boundary characters).  No trailing empty line is produced. -/
def splitlines (s : String) : List String :=
  (splitlinesAux s.data []).map (fun l => ⟨l⟩)

/-- Value of an ASCII digit, `none` for other characters. -/
def digitVal (c : Char) : Option Nat :=
  if '0' ≤ c && c ≤ '9' then some (c.toNat - '0'.toNat) else none

/-- Accumulates the decimal value of a digit string. -/
def digitsToNatAux : List Char → Nat → Option Nat
  | [], acc => some acc
  | c :: cs, acc =>
    match digitVal c with
    | none => none
    | some d => digitsToNatAux cs (acc * 10 + d)

/-- Python `int(token)` on the digit tokens produced by the grammar:
an optional sign followed by decimal digits (Python's `int` additionally
tolerates surrounding whitespace and underscores, which the grammar's
tokens never contain). -/
def pyInt (s : String) : Option Int :=
  match s.data with
  | [] => none
  | '-' :: cs =>
    match cs with
    | [] => none
    | _ => (digitsToNatAux cs 0).map (fun n => -(n : Int))
  | cs => (digitsToNatAux cs 0).map (fun n => (n : Int))

/-- Python `d.get(key)` / `d.get(key, None)` on an insertion-ordered
mapping. -/
def dictGet {K A : Type} [DecidableEq K] : List (K × A) → K → Option A
  | [], _ => none
  | (k, v) :: rest, key => if k = key then some v else dictGet rest key

/-! ## Data model

The model types live in `specs.py` / `argument_ref.py` /
`error_contexts.py` / `exceptions.py`, which are siblings of the parsed
source file. -/

/-- Modelled from the spec: `ArgumentRef` is "polymorphic over variants
`Root`, `Attribute`, `Index`"; each non-root variant holds its parent
reference and the chain terminates at a `Root`.  `Root` carries the
argument name, `Attribute` an attribute name, `Index` a signed index. -/
inductive ArgumentRef where
  | root (argument_name : String)
  | attribute (source : ArgumentRef) (attribute_name : String)
  | index (source : ArgumentRef) (i : Int)
  deriving DecidableEq, Repr

/-- Modelled from the spec: "the `root_argument_name` is the name carried
by that `Root`" at the end of the chain. -/
def rootArgumentName : ArgumentRef → String
  | .root n => n
  | .attribute s _ => rootArgumentName s
  | .index s _ => rootArgumentName s

/-- Modelled from the spec: the display form of an argument reference
("a marker for the argument reference's display form"): the root name
followed by `.attr` and `[i]` hops. -/
def argumentRefRepr : ArgumentRef → String
  | .root n => n
  | .attribute s n => argumentRefRepr s ++ "." ++ n
  | .index s i => argumentRefRepr s ++ "[" ++ toString i ++ "]"

/-- Modelled from the spec: the reserved result token naming return
values. -/
def RESULT_TOKEN : String := "return"

/-- Modelled from the spec: `DimensionSpec` — at most one of a fixed
constant size or a variable name, plus the orthogonal `variable_rank`
flag.  (`constant` is `Option Int` because the builder stores the result
of Python `int(token)`.) -/
structure ParsedDimensionSpec where
  constant : Option Int
  variable_name : Option String
  variable_rank : Bool
  deriving DecidableEq, Repr

/-- Modelled from the spec: `ShapeSpec` is "an ordered sequence of
`DimensionSpec`". -/
structure ParsedShapeSpec where
  dims : List ParsedDimensionSpec
  deriving DecidableEq, Repr

/-- Modelled from the spec: `ArgumentSpec` "pairs one `ArgumentRef` with
one `ShapeSpec`". -/
structure ParsedArgumentSpec where
  argument_ref : ArgumentRef
  shape : ParsedShapeSpec
  deriving DecidableEq, Repr

/-- Modelled from the spec: the grammar engine "Reports structured errors
with exact failure position when input does not conform to the grammar"
(lark's `UnexpectedInput`). -/
structure UnexpectedInput where
  pos_in_stream : Nat
  deriving DecidableEq, Repr

/-- Modelled from the spec: error contexts — caller-supplied location
information, stack chaining, and the lark-failure context carrying "the
offending text, the failure position, and acceptable-terminal
descriptions". -/
inductive ErrorContext where
  | callerContext (description : String)
  | stackContext (parent : ErrorContext) (child : ErrorContext)
  | larkUnexpectedInputContext (text : String) (error : UnexpectedInput)
      (terminal_descriptions : List (String × String))
  deriving DecidableEq, Repr

/-- Modelled from the spec: the two caller-facing parse failures plus the
fatal internal-consistency failure (Python `AssertionError` and kin). -/
inductive CheckShapesError where
  | specificationParseError (context : ErrorContext)
  | docstringParseError (context : ErrorContext)
  | assertionError
  deriving DecidableEq, Repr

/-! ## Parse trees (lark `LarkTree` / `Token`) -/

/-- Source span recorded on a parse-tree node (`tree.meta.start_pos` /
`tree.meta.end_pos`). -/
structure TreeMeta where
  start_pos : Nat
  end_pos : Nat
  deriving DecidableEq, Repr

/-- A lark parse tree: a rule name (`tree.data`), a source span, and a
list of children, each either a subtree or a token (whose `.value` we
store directly). -/
inductive LarkTree where
  | node (data : String) (meta : TreeMeta) (children : List (LarkTree ⊕ String))

/-- `tree.data`. -/
def LarkTree.data : LarkTree → String
  | .node d _ _ => d

/-- `tree.meta`. -/
def LarkTree.meta : LarkTree → TreeMeta
  | .node _ m _ => m

/-- `tree.children`. -/
def LarkTree.childList : LarkTree → List (LarkTree ⊕ String)
  | .node _ _ c => c

/-- `_tree_children(tree)`: the children of `tree` that are trees. -/
def _tree_children (tree : LarkTree) : List LarkTree :=
  tree.childList.filterMap (fun c =>
    match c with
    | .inl t => some t
    | .inr _ => none)

/-- `_token_children(tree)`: the values of the children that are tokens. -/
def _token_children (tree : LarkTree) : List String :=
  tree.childList.filterMap (fun c =>
    match c with
    | .inl _ => none
    | .inr s => some s)

/-! ## `_ParseArgumentSpec` (argument-spec model builder)

Each method of the Python class becomes one function.  The class's
`visit` dispatches on `tree.data` (via `getattr`), asserting when no
method of that name exists; every dispatch point below therefore matches
on `data` and yields `none` where the Python code would raise
(`AssertionError`, unpacking `ValueError`, or argument-count
`TypeError`). -/

/-- `_ParseArgumentSpec.argument_name`. -/
def ParseArgumentSpec.argument_name (t : LarkTree) : Option ArgumentRef :=
  if t.data = "argument_name" then
    match _token_children t with
    | [token] => some (.root token)
    | _ => none
  else none

/-- Dispatch target for one child of the reference chain:
`_ParseArgumentSpec.argument_ref_attribute` /
`_ParseArgumentSpec.argument_ref_index`. -/
def ParseArgumentSpec.argument_ref (t : LarkTree) (source : ArgumentRef) :
    Option ArgumentRef :=
  if t.data = "argument_ref_attribute" then
    match _token_children t with
    | [token] => some (.attribute source token)
    | _ => none
  else if t.data = "argument_ref_index" then
    match _token_children t with
    | [token] => (pyInt token).map (fun i => ArgumentRef.index source i)
    | _ => none
  else none

/-- The `for` loop inside `_ParseArgumentSpec.argument_refs`. -/
def ParseArgumentSpec.argument_refs_loop :
    List LarkTree → ArgumentRef → Option ArgumentRef
  | [], result => some result
  | c :: cs, result =>
    match ParseArgumentSpec.argument_ref c result with
    | none => none
    | some r => ParseArgumentSpec.argument_refs_loop cs r

/-- `_ParseArgumentSpec.argument_refs`. -/
def ParseArgumentSpec.argument_refs (t : LarkTree) (result : ArgumentRef) :
    Option ArgumentRef :=
  if t.data = "argument_refs" then
    ParseArgumentSpec.argument_refs_loop (_tree_children t) result
  else none

/-- Dispatch target for one dimension spec:
`_ParseArgumentSpec.dimension_spec_constant` / `..._variable` /
`..._anonymous` / `..._variable_rank` / `..._anonymous_variable_rank`. -/
def ParseArgumentSpec.dimension_spec (t : LarkTree) : Option ParsedDimensionSpec :=
  if t.data = "dimension_spec_constant" then
    match _token_children t with
    | [token] => (pyInt token).map (fun c => ⟨some c, none, false⟩)
    | _ => none
  else if t.data = "dimension_spec_variable" then
    match _token_children t with
    | [token] => some ⟨none, some token, false⟩
    | _ => none
  else if t.data = "dimension_spec_anonymous" then
    some ⟨none, none, false⟩
  else if t.data = "dimension_spec_variable_rank" then
    match _token_children t with
    | [token1, token2] =>
      if token1 = "*" then some ⟨none, some token2, true⟩
      else if token2 = "..." then some ⟨none, some token1, true⟩
      else none
    | _ => none
  else if t.data = "dimension_spec_anonymous_variable_rank" then
    some ⟨none, none, true⟩
  else none

/-- `_ParseArgumentSpec.dimension_specs`. -/
def ParseArgumentSpec.dimension_specs (t : LarkTree) :
    Option (List ParsedDimensionSpec) :=
  if t.data = "dimension_specs" then
    (_tree_children t).mapM ParseArgumentSpec.dimension_spec
  else none

/-- `_ParseArgumentSpec.shape_spec` (its `argument_ref` parameter is
unused in the source). -/
def ParseArgumentSpec.shape_spec (t : LarkTree) : Option ParsedShapeSpec :=
  if t.data = "shape_spec" then
    match _tree_children t with
    | [dimension_specs] =>
      (ParseArgumentSpec.dimension_specs dimension_specs).map ParsedShapeSpec.mk
    | _ => none
  else none

/-- `_ParseArgumentSpec.argument_spec`. -/
def ParseArgumentSpec.argument_spec (t : LarkTree) : Option ParsedArgumentSpec :=
  if t.data = "argument_spec" then
    match _tree_children t with
    | [argument_name, argument_refs, shape_spec] => do
      let root ← ParseArgumentSpec.argument_name argument_name
      let ref ← ParseArgumentSpec.argument_refs argument_refs root
      let shape ← ParseArgumentSpec.shape_spec shape_spec
      pure ⟨ref, shape⟩
    | _ => none
  else none

/-! ## `_RewritedocString` (docstring rewriter) -/

/-- Insert-sorted-position helper for `sortStrings` (Python string
comparison: lexicographic by code point). -/
def strLtList : List Char → List Char → Bool
  | [], [] => false
  | [], _ :: _ => true
  | _ :: _, [] => false
  | a :: as, b :: bs =>
    if a.toNat < b.toNat then true
    else if b.toNat < a.toNat then false
    else strLtList as bs

/-- Python `a <= b` on strings. -/
def pyStrLe (a b : String) : Bool :=
  !(strLtList b.data a.data)

/-- One insertion step of the insertion sort used to model
`list.sort()`. -/
def insertSorted (x : String) : List String → List String
  | [] => [x]
  | y :: ys => if pyStrLe x y then x :: y :: ys else y :: insertSorted x ys

/-- Python `lines.sort()` (ascending, lexicographic by code point). -/
def sortStrings (l : List String) : List String :=
  l.foldr insertSorted []

/-- Python `result.setdefault(key, []).append(line)` on an
insertion-ordered mapping. -/
def setdefaultAppend (m : List (String × List String)) (key line : String) :
    List (String × List String) :=
  match m with
  | [] => [(key, [line])]
  | (k, vs) :: rest =>
    if k = key then (k, vs ++ [line]) :: rest
    else (k, vs) :: setdefaultAppend rest key line

/-- The dimension rendering inside
`_RewritedocString._shape_spec_to_sphinx`'s loop. -/
def _dim_to_sphinx (dim : ParsedDimensionSpec) : String :=
  match dim.constant with
  | some c => toString c
  | none =>
    match dim.variable_name with
    | some n => "*" ++ n ++ "*" ++ (if dim.variable_rank then "..." else "")
    | none => if dim.variable_rank then "..." else "."

/-- `_RewritedocString._shape_spec_to_sphinx`. -/
def _shape_spec_to_sphinx (shape_spec : ParsedShapeSpec) : String :=
  String.intercalate ", " (shape_spec.dims.map _dim_to_sphinx)

/-- `_RewritedocString._argument_spec_to_sphinx`. -/
def _argument_spec_to_sphinx (argument_spec : ParsedArgumentSpec) : String :=
  "* **" ++ argumentRefRepr argument_spec.argument_ref ++ "**" ++
    " has shape [" ++ _shape_spec_to_sphinx argument_spec.shape ++ "]."

/-- `_RewritedocString._argument_specs_to_sphinx`. -/
def _argument_specs_to_sphinx (argument_specs : List ParsedArgumentSpec) :
    List (String × List String) :=
  let result := argument_specs.foldl
    (fun m spec =>
      setdefaultAppend m (rootArgumentName spec.argument_ref)
        (_argument_spec_to_sphinx spec))
    []
  result.map (fun kv => (kv.1, sortStrings kv.2))

/-- The `for` loop of `_RewritedocString._guess_indent` (the Python code
uses `-1` as a sentinel for "no indentation seen yet", modelled here as
`none`). -/
def guessIndentLoop : List String → Option Nat → Option Nat
  | [], indent => indent
  | line :: rest, indent =>
    let stripped := lstrip line
    if strIsEmpty stripped then guessIndentLoop rest indent
    else
      let lineIndent := line.length - stripped.length
      match indent with
      | none => guessIndentLoop rest (some lineIndent)
      | some i =>
        guessIndentLoop rest (some (if lineIndent < i then lineIndent else i))

/-- `_RewritedocString._guess_indent`. -/
def _guess_indent (docstring : String) : Option Nat :=
  let lines := splitlines (expandtabs docstring)
  guessIndentLoop lines.tail none

/-- The state of a `_RewritedocString` instance after `__init__`. -/
structure RewritedocString where
  source : String
  spec_lines : List (String × List String)
  indent : Option Nat

/-- `_RewritedocString.__init__`. -/
def mkRewritedocString (source : String)
    (argument_specs : List ParsedArgumentSpec) : RewritedocString :=
  ⟨source, _argument_specs_to_sphinx argument_specs, _guess_indent source⟩

/-- `_RewritedocString._insert_spec_lines`: returns the extended `out`
list and the new cursor `pos`. -/
def _insert_spec_lines (source : String) (indent : Option Nat)
    (out : List String) (pos : Nat) (spec_lines : List String)
    (docs : LarkTree) : List String × Nat :=
  let leading_str := rstrip (pySlice source pos docs.meta.start_pos)
  let docs_start := pos + leading_str.length
  let docs_str := pySlice source docs_start docs.meta.end_pos
  let trailing_str := lstrip docs_str
  let docs_indent :=
    match _guess_indent docs_str with
    | none =>
      match indent with
      | none => 4
      | some i => i + 4
    | some i => i
  let indent_str := "\n" ++ (⟨List.replicate docs_indent ' '⟩ : String)
  let out := out ++ [leading_str]
  let out := out ++ (spec_lines.map (fun spec_line => [indent_str, spec_line])).flatten
  let out := out ++ ["\n", indent_str, trailing_str]
  (out, docs.meta.end_pos)

/-- `_RewritedocString.info_field_args`. -/
def RewritedocString.info_field_args (t : LarkTree) : Option String :=
  if t.data = "info_field_args" then
    let tokens := _token_children t
    match tokens.getLast? with
    | none => some ""
    | some token => some token
  else none

/-- Dispatch target for one info field:
`_RewritedocString.info_field_param` / `...info_field_returns` /
`...info_field_other`.  Takes and returns the `(out, pos)` rewriting
state. -/
def RewritedocString.info_field (rw : RewritedocString) (t : LarkTree)
    (out : List String) (pos : Nat) : Option (List String × Nat) :=
  if t.data = "info_field_param" then
    match _tree_children t with
    | [info_field_args, docs] =>
      match RewritedocString.info_field_args info_field_args with
      | none => none
      | some arg_name =>
        match dictGet rw.spec_lines arg_name with
        | some (l :: ls) =>
          some (_insert_spec_lines rw.source rw.indent out pos (l :: ls) docs)
        | _ => some (out, pos)
    | _ => none
  else if t.data = "info_field_returns" then
    match _tree_children t with
    | [docs] =>
      match dictGet rw.spec_lines RESULT_TOKEN with
      | some (l :: ls) =>
        some (_insert_spec_lines rw.source rw.indent out pos (l :: ls) docs)
      | _ => some (out, pos)
    | _ => none
  else if t.data = "info_field_other" then
    some (out, pos)
  else none

/-- The `for` loop of `_RewritedocString.info_fields`. -/
def RewritedocString.info_fields_loop (rw : RewritedocString) :
    List LarkTree → List String → Nat → Option (List String × Nat)
  | [], out, pos => some (out, pos)
  | f :: fs, out, pos =>
    match RewritedocString.info_field rw f out pos with
    | none => none
    | some (out, pos) => RewritedocString.info_fields_loop rw fs out pos

/-- `_RewritedocString.info_fields`. -/
def RewritedocString.info_fields (rw : RewritedocString) (t : LarkTree)
    (out : List String) (pos : Nat) : Option (List String × Nat) :=
  if t.data = "info_fields" then
    RewritedocString.info_fields_loop rw (_tree_children t) out pos
  else none

/-- `_RewritedocString.docstring` (the entry rule of the visitor). -/
def RewritedocString.docstring (rw : RewritedocString) (t : LarkTree) :
    Option String :=
  if t.data = "docstring" then
    match _tree_children t with
    | [_docs, info_fields] =>
      match RewritedocString.info_fields rw info_fields [] 0 with
      | none => none
      | some (out, pos) =>
        some (String.join (out ++ [pyDropFrom rw.source pos]))
    | _ => none
  else none

/-! ## Terminal descriptions (`_create_terminal_descriptions`) -/

/-- A lark terminal pattern: a fixed literal (`PatternStr`) or a regular
expression (`PatternRE`), of which only the raw text matters here. -/
inductive LarkPattern where
  | patternStr (value : String)
  | patternRE (value : String)
  deriving DecidableEq, Repr

/-- A lark terminal definition: a name and a pattern. -/
structure TerminalDef where
  name : String
  pattern : LarkPattern
  deriving DecidableEq, Repr

/-- Python `unused.pop(name, None)` on an insertion-ordered mapping:
the popped value (if any) and the remaining mapping. -/
def popKey (m : List (String × String)) (k : String) :
    Option String × List (String × String) :=
  match m with
  | [] => (none, [])
  | (k1, v) :: rest =>
    if k1 = k then (some v, rest)
    else
      let r := popKey rest k
      (r.1, (k1, v) :: r.2)

/-- Python `result[name] = description` on an insertion-ordered
mapping. -/
def dictInsert (m : List (String × String)) (k v : String) :
    List (String × String) :=
  match m with
  | [] => [(k, v)]
  | (k1, v1) :: rest =>
    if k1 = k then (k, v) :: rest
    else (k1, v1) :: dictInsert rest k v

/-- Python `missing.add(name)` on a set, modelled as a duplicate-free
list. -/
def setAdd (m : List String) (k : String) : List String :=
  if m.contains k then m else m ++ [k]

/-- The `for` loop of `_create_terminal_descriptions`, carrying the
`(missing, unused, result)` state. -/
def ctdLoop : List TerminalDef → List String → List (String × String) →
    List (String × String) →
    List String × List (String × String) × List (String × String)
  | [], missing, unused, result => (missing, unused, result)
  | t :: ts, missing, unused, result =>
    match t.pattern with
    | .patternStr v =>
      ctdLoop ts missing unused
        (dictInsert result t.name ("\x22" ++ v ++ "\x22"))
    | .patternRE v =>
      let popped := popKey unused t.name
      match popped.1 with
      | none =>
        ctdLoop ts (setAdd missing t.name) popped.2
          (dictInsert result t.name "ERROR")
      | some d =>
        ctdLoop ts missing popped.2
          (dictInsert result t.name (d ++ " (re=" ++ v ++ ")"))

/-- `_create_terminal_descriptions`: builds the terminal-description
table; the two trailing `assert`s (`not unused`, `not missing`) are
modelled by returning `none`. -/
def _create_terminal_descriptions (terminals : List TerminalDef)
    (re_descriptions : List (String × String)) :
    Option (List (String × String)) :=
  match ctdLoop terminals [] re_descriptions [] with
  | (missing, unused, result) =>
    if unused.isEmpty then
      if missing.isEmpty then some result else none
    else none

/-! ## Entry points

The grammar engine (`Lark.parse`) and the module-level description
tables are external to the embedded function bodies; they appear as the
`grammar` and `terminal_descriptions` parameters.  The process-wide
caches `_ARGUMENT_SPEC_CACHE` / `_SPHINX_DOCSTRING_CACHE` become an
explicit argument and result. -/

/-- `parse_argument_spec`.  Returns the Python result (normal return or
raised exception) together with the state of `_ARGUMENT_SPEC_CACHE`
after the call. -/
def parse_argument_spec (grammar : String → Except UnexpectedInput LarkTree)
    (terminal_descriptions : List (String × String))
    (argument_spec : String) (context : ErrorContext)
    (cache : List (String × ParsedArgumentSpec)) :
    Except CheckShapesError ParsedArgumentSpec ×
      List (String × ParsedArgumentSpec) :=
  match dictGet cache argument_spec with
  | some cached_value => (.ok cached_value, cache)
  | none =>
    match grammar argument_spec with
    | .error e =>
      (.error (.specificationParseError (.stackContext context
        (.larkUnexpectedInputContext argument_spec e terminal_descriptions))),
       cache)
    | .ok tree =>
      match ParseArgumentSpec.argument_spec tree with
      | some specs => (.ok specs, cache)
      | none => (.error .assertionError, cache)

/-- `_parse_and_rewrite_sphinx_docstring`.  Returns the Python result
together with the state of `_SPHINX_DOCSTRING_CACHE` after the call. -/
def _parse_and_rewrite_sphinx_docstring
    (grammar : String → Except UnexpectedInput LarkTree)
    (terminal_descriptions : List (String × String))
    (docstring : String) (argument_specs : List ParsedArgumentSpec)
    (context : ErrorContext)
    (cache : List ((String × List ParsedArgumentSpec) × String)) :
    Except CheckShapesError String ×
      List ((String × List ParsedArgumentSpec) × String) :=
  match dictGet cache (docstring, argument_specs) with
  | some cached_value => (.ok cached_value, cache)
  | none =>
    match grammar docstring with
    | .error e =>
      (.error (.docstringParseError (.stackContext context
        (.larkUnexpectedInputContext docstring e terminal_descriptions))),
       cache)
    | .ok tree =>
      match RewritedocString.docstring
          (mkRewritedocString docstring argument_specs) tree with
      | some rewritten_docstring => (.ok rewritten_docstring, cache)
      | none => (.error .assertionError, cache)

/-! ## Spec-side definitions

The following definitions are not translations of the source; they state,
in the claims' own words, properties that the theorems below compare
against the translated code. -/

/-- Follows the claims' words (C3): an info field whose argument name
(or, for a returns field, the reserved result token) matches none of the
supplied root argument names; other fields trivially match nothing.
The structural side conditions mirror what the grammar guarantees about
field nodes. -/
def fieldNoMatch (roots : List String) (f : LarkTree) : Bool :=
  if f.data = "info_field_param" then
    match _tree_children f with
    | [argsT, _docsT] =>
      match RewritedocString.info_field_args argsT with
      | some name => !(decide (name ∈ roots))
      | none => false
    | _ => false
  else if f.data = "info_field_returns" then
    match _tree_children f with
    | [_docsT] => !(decide (RESULT_TOKEN ∈ roots))
    | _ => false
  else f.data = "info_field_other"

/-- Follows the claims' words (C6): the minimum of a list of widths,
absent for the empty list. -/
def specMinimum : List Nat → Option Nat
  | [] => none
  | x :: xs =>
    match specMinimum xs with
    | none => some x
    | some y => some (min x y)

/-- Follows the claims' words (C6): the leading-whitespace widths of the
non-blank lines of a line list. -/
def widthsOfLines (lines : List String) : List Nat :=
  (lines.filter (fun l => !strIsEmpty (lstrip l))).map
    (fun l => l.length - (lstrip l).length)

/-- Follows the claims' words (C6): the leading-whitespace widths (after
tab expansion) of all non-blank lines of `s` excluding the first line. -/
def specIndentWidths (s : String) : List Nat :=
  widthsOfLines (splitlines (expandtabs s)).tail

/-- The text emitted before the insertion point by
`_insert_spec_lines` (for stating C6). -/
def specLeading (source : String) (pos : Nat) (docs : LarkTree) : String :=
  rstrip (pySlice source pos docs.meta.start_pos)

/-- The field's own documentation text as sliced by
`_insert_spec_lines` (for stating C6). -/
def specDocsStr (source : String) (pos : Nat) (docs : LarkTree) : String :=
  pySlice source (pos + (specLeading source pos docs).length)
    docs.meta.end_pos

/-- Follows the claims' words (C6): the indentation of inserted spec
lines — the field docs text's own inferred indentation when present,
else the base indentation plus 4, else 4. -/
def specChosenIndent (source : String) (indent : Option Nat) (pos : Nat)
    (docs : LarkTree) : Nat :=
  (_guess_indent (specDocsStr source pos docs)).getD
    ((indent.map (fun i => i + 4)).getD 4)

/-- The indentation string (`"\n"` plus spaces) prescribed by the
claim's indentation rule (for stating C6). -/
def specIndentStr (source : String) (indent : Option Nat) (pos : Nat)
    (docs : LarkTree) : String :=
  "\n" ++ (⟨List.replicate (specChosenIndent source indent pos docs) ' '⟩ : String)

/-! ## Theorems -/

theorem argument_refs_loop_eq_foldlM (cs : List LarkTree) (r : ArgumentRef) :
    ParseArgumentSpec.argument_refs_loop cs r =
      cs.foldlM (fun acc c => ParseArgumentSpec.argument_ref c acc) r := by
  induction cs generalizing r with
  | nil => rfl
  | cons c cs ih =>
    simp only [ParseArgumentSpec.argument_refs_loop, List.foldlM_cons]
    cases ParseArgumentSpec.argument_ref c r with
    | none => rfl
    | some r2 => simpa using ih r2

/-- C4: the dimension rendering maps a constant dimension to its decimal
digits, a named non-variable-rank dimension to the name wrapped in
asterisks, a named variable-rank dimension to the wrapped name followed
by `...`, an anonymous dimension to `.`, an anonymous variable-rank
dimension to `...`, joined by `", "`; in particular
`[constant=3, variable_rank "batch", anonymous]` renders to exactly
`"3, *batch*..., ."`. -/
theorem dim_rendering_correct :
    (∀ c : Int, _dim_to_sphinx ⟨some c, none, false⟩ = toString c)
    ∧ (∀ n : String, _dim_to_sphinx ⟨none, some n, false⟩ = "*" ++ n ++ "*")
    ∧ (∀ n : String,
        _dim_to_sphinx ⟨none, some n, true⟩ = "*" ++ n ++ "*" ++ "...")
    ∧ _dim_to_sphinx ⟨none, none, false⟩ = "."
    ∧ _dim_to_sphinx ⟨none, none, true⟩ = "..."
    ∧ _shape_spec_to_sphinx
        ⟨[⟨some 3, none, false⟩, ⟨none, some "batch", true⟩,
          ⟨none, none, false⟩]⟩ = "3, *batch*..., ." := by
  refine ⟨fun c => rfl, fun n => ?_, fun n => rfl, rfl, rfl, by decide⟩
  show "*" ++ n ++ "*" ++ "" = "*" ++ n ++ "*"
  simp

/-- C5: the reference-chain node folds its children left-to-right over
the root reference, each child wrapping the accumulated reference in an
`Attribute` (from its identifier token) or an `Index` (from its integer
token parsed as a signed integer); the chain of `"a.b[2]"` yields
`Index(2, Attribute("b", Root("a")))` whose `root_argument_name` is
`"a"`. -/
theorem argument_refs_fold_correct :
    (∀ (t : LarkTree) (r : ArgumentRef), t.data = "argument_refs" →
      ParseArgumentSpec.argument_refs t r =
        (_tree_children t).foldlM
          (fun acc c => ParseArgumentSpec.argument_ref c acc) r)
    ∧ (∀ (m : TreeMeta) (tok : String) (r : ArgumentRef),
        ParseArgumentSpec.argument_ref
          (.node "argument_ref_attribute" m [.inr tok]) r =
          some (.attribute r tok))
    ∧ (∀ (m : TreeMeta) (tok : String) (r : ArgumentRef),
        ParseArgumentSpec.argument_ref
          (.node "argument_ref_index" m [.inr tok]) r =
          (pyInt tok).map (fun i => ArgumentRef.index r i))
    ∧ ParseArgumentSpec.argument_refs
        (.node "argument_refs" ⟨0, 6⟩
          [.inl (.node "argument_ref_attribute" ⟨1, 3⟩ [.inr "b"]),
           .inl (.node "argument_ref_index" ⟨3, 6⟩ [.inr "2"])])
        (.root "a") =
        some (.index (.attribute (.root "a") "b") 2)
    ∧ rootArgumentName (.index (.attribute (.root "a") "b") 2) = "a" := by
  refine ⟨fun t r h => ?_, fun m tok r => rfl, fun m tok r => rfl, by decide,
    rfl⟩
  simp only [ParseArgumentSpec.argument_refs, h, if_pos]
  exact argument_refs_loop_eq_foldlM _ r

/-- Witness for C5's general fold clause at the `"a.b[2]"` chain tree. -/
theorem argument_refs_fold_correct_witness :
    ParseArgumentSpec.argument_refs
      (.node "argument_refs" ⟨0, 6⟩
        [.inl (.node "argument_ref_attribute" ⟨1, 3⟩ [.inr "b"]),
         .inl (.node "argument_ref_index" ⟨3, 6⟩ [.inr "2"])])
      (.root "a") =
      (_tree_children
        (.node "argument_refs" ⟨0, 6⟩
          [.inl (.node "argument_ref_attribute" ⟨1, 3⟩ [.inr "b"]),
           .inl (.node "argument_ref_index" ⟨3, 6⟩ [.inr "2"])])).foldlM
        (fun acc c => ParseArgumentSpec.argument_ref c acc) (.root "a") :=
  argument_refs_fold_correct.1 _ _ rfl

/-- C7: every `ParsedDimensionSpec` produced by the dimension handlers
has `variable_rank = false` whenever its constant is present, and never
carries both a constant and a variable name. -/
theorem dimension_spec_invariant :
    ∀ (t : LarkTree) (d : ParsedDimensionSpec),
      ParseArgumentSpec.dimension_spec t = some d →
      (d.constant.isSome → d.variable_rank = false) ∧
        ¬(d.constant.isSome ∧ d.variable_name.isSome) := by
  intro t d h
  unfold ParseArgumentSpec.dimension_spec at h
  split_ifs at h
  case pos =>
    split at h
    case h_1 =>
      simp only [Option.map_eq_some'] at h
      obtain ⟨a, -, rfl⟩ := h
      simp
    case h_2 => cases h
  case pos =>
    split at h
    case h_1 => cases h; simp
    case h_2 => cases h
  case pos => cases h; simp
  case pos =>
    split at h
    case h_1 =>
      split_ifs at h
      case pos => cases h; simp
      case pos => cases h; simp
    case h_2 => cases h
  case pos => cases h; simp

/-- Witness for C7 at the constant-dimension tree for token `"3"`. -/
theorem dimension_spec_invariant_witness :
    ((⟨some 3, none, false⟩ : ParsedDimensionSpec).constant.isSome →
      (⟨some 3, none, false⟩ : ParsedDimensionSpec).variable_rank = false) ∧
    ¬((⟨some 3, none, false⟩ : ParsedDimensionSpec).constant.isSome ∧
      (⟨some 3, none, false⟩ : ParsedDimensionSpec).variable_name.isSome) :=
  dimension_spec_invariant (.node "dimension_spec_constant" ⟨0, 1⟩ [.inr "3"])
    ⟨some 3, none, false⟩ (by decide)

/-- C1 (refuted; the code never populates its caches): both entry points
return the cache they were given, unchanged, on every path. -/
theorem caches_never_populated
    (g : String → Except UnexpectedInput LarkTree)
    (td : List (String × String)) (s : String) (ctx : ErrorContext)
    (cache : List (String × ParsedArgumentSpec))
    (g2 : String → Except UnexpectedInput LarkTree)
    (td2 : List (String × String)) (d : String)
    (specs : List ParsedArgumentSpec) (ctx2 : ErrorContext)
    (dcache : List ((String × List ParsedArgumentSpec) × String)) :
    (parse_argument_spec g td s ctx cache).2 = cache ∧
      (_parse_and_rewrite_sphinx_docstring g2 td2 d specs ctx2 dcache).2 =
        dcache := by
  constructor
  · unfold parse_argument_spec
    repeat' split
    all_goals rfl
  · unfold _parse_and_rewrite_sphinx_docstring
    repeat' split
    all_goals rfl

/-- C8: when the string is not cached and the grammar engine rejects it,
`parse_argument_spec` returns the specification-parse failure whose
payload wraps, in the caller-supplied context, the offending text, the
structured grammar error (with its failure position) and the
acceptable-terminal description table — never a normal return. -/
theorem parse_failure_error_payload
    (g : String → Except UnexpectedInput LarkTree)
    (td : List (String × String)) (s : String) (ctx : ErrorContext)
    (cache : List (String × ParsedArgumentSpec)) (e : UnexpectedInput)
    (hcache : dictGet cache s = none) (hg : g s = .error e) :
    (parse_argument_spec g td s ctx cache).1 =
      .error (.specificationParseError (.stackContext ctx
        (.larkUnexpectedInputContext s e td))) := by
  simp [parse_argument_spec, hcache, hg]

/-- Witness for C8 at a one-character unparseable input with an empty
cache. -/
theorem parse_failure_error_payload_witness :
    (parse_argument_spec (fun _ => .error ⟨3⟩) [("INT", "integer")] "a: ["
      (.callerContext "f") []).1 =
      .error (.specificationParseError (.stackContext (.callerContext "f")
        (.larkUnexpectedInputContext "a: [" ⟨3⟩ [("INT", "integer")]))) :=
  parse_failure_error_payload _ _ _ _ _ _ rfl rfl

theorem str_data_append (a b : String) : (a ++ b).data = a.data ++ b.data := by
  cases a
  cases b
  rfl

theorem str_join_foldl_data (l : List String) (s : String) :
    (List.foldl (fun a b => a ++ b) s l).data =
      s.data ++ (l.map String.data).flatten := by
  induction l generalizing s with
  | nil => simp
  | cons x xs ih =>
    simp only [List.foldl_cons, List.map_cons, List.flatten_cons]
    rw [ih, str_data_append, List.append_assoc]

theorem str_join_data (l : List String) :
    (String.join l).data = (l.map String.data).flatten := by
  have h := str_join_foldl_data l ""
  simpa [String.join] using h

theorem pyDropFrom_zero (s : String) : pyDropFrom s 0 = s := by
  cases s
  simp [pyDropFrom]

theorem str_ext (a b : String) (h : a.data = b.data) : a = b := by
  cases a
  cases b
  exact congrArg String.mk h

theorem str_join_singleton (s : String) : String.join [s] = s :=
  str_ext _ _ (by simp [str_join_data])

theorem dictGet_map_sort (m : List (String × List String)) (k : String) :
    dictGet (m.map (fun kv => (kv.1, sortStrings kv.2))) k =
      (dictGet m k).map sortStrings := by
  induction m with
  | nil => rfl
  | cons kv rest ih =>
    by_cases h : kv.1 = k
    · simp [dictGet, h]
    · simp [dictGet, h, ih]

theorem dictGet_setdefaultAppend_ne (m : List (String × List String))
    (key line : String) (k : String) (h : key ≠ k) :
    dictGet (setdefaultAppend m key line) k = dictGet m k := by
  induction m with
  | nil => simp [setdefaultAppend, dictGet, h]
  | cons kv rest ih =>
    obtain ⟨k1, v1⟩ := kv
    by_cases h1 : k1 = key
    · subst h1
      simp [setdefaultAppend, dictGet, h]
    · by_cases h2 : k1 = k <;>
        simp [setdefaultAppend, dictGet, h1, h2, ih, Ne.symm h]

theorem dictGet_specs_fold_none (specs : List ParsedArgumentSpec)
    (m : List (String × List String)) (k : String)
    (hm : dictGet m k = none)
    (h : ∀ sp ∈ specs, rootArgumentName sp.argument_ref ≠ k) :
    dictGet (specs.foldl
      (fun m2 spec => setdefaultAppend m2
        (rootArgumentName spec.argument_ref) (_argument_spec_to_sphinx spec))
      m) k = none := by
  induction specs generalizing m with
  | nil => simpa using hm
  | cons sp rest ih =>
    simp only [List.foldl_cons]
    refine ih _ ?_ (fun sp2 h2 => h sp2 (List.mem_cons_of_mem _ h2))
    rw [dictGet_setdefaultAppend_ne _ _ _ _ (h sp (List.mem_cons_self _ _))]
    exact hm

theorem dictGet_spec_lines_none (specs : List ParsedArgumentSpec) (k : String)
    (h : ∀ sp ∈ specs, rootArgumentName sp.argument_ref ≠ k) :
    dictGet (_argument_specs_to_sphinx specs) k = none := by
  unfold _argument_specs_to_sphinx
  rw [dictGet_map_sort, dictGet_specs_fold_none specs [] k rfl h]
  rfl

theorem info_field_no_match (source : String)
    (specs : List ParsedArgumentSpec) (f : LarkTree) (out : List String)
    (pos : Nat)
    (h : fieldNoMatch (specs.map fun sp => rootArgumentName sp.argument_ref)
      f = true) :
    RewritedocString.info_field (mkRewritedocString source specs) f out pos =
      some (out, pos) := by
  unfold fieldNoMatch at h
  unfold RewritedocString.info_field
  split_ifs at h ⊢ with h1 h2 h3
  · split at h
    · rename_i argsT docsT heq
      split at h
      · rename_i name hname
        have hnot : ∀ sp ∈ specs, rootArgumentName sp.argument_ref ≠ name := by
          simp only [Bool.not_eq_eq_eq_not, Bool.not_true,
            decide_eq_false_iff_not, List.mem_map] at h
          intro sp hsp he
          exact h ⟨sp, hsp, he⟩
        have hd : dictGet (mkRewritedocString source specs).spec_lines name =
            none := by
          show dictGet (_argument_specs_to_sphinx specs) name = none
          exact dictGet_spec_lines_none specs name hnot
        simp [hname, hd]
      · exact Bool.noConfusion h
    · exact Bool.noConfusion h
  · split at h
    · rename_i docsT heq
      have hnot : ∀ sp ∈ specs,
          rootArgumentName sp.argument_ref ≠ RESULT_TOKEN := by
        simp only [Bool.not_eq_eq_eq_not, Bool.not_true,
          decide_eq_false_iff_not, List.mem_map] at h
        intro sp hsp he
        exact h ⟨sp, hsp, he⟩
      have hd : dictGet (mkRewritedocString source specs).spec_lines
          RESULT_TOKEN = none := by
        show dictGet (_argument_specs_to_sphinx specs) RESULT_TOKEN = none
        exact dictGet_spec_lines_none specs RESULT_TOKEN hnot
      simp [hd]
    · exact Bool.noConfusion h
  · rfl
  · simp [h3] at h

theorem info_fields_loop_no_match (source : String)
    (specs : List ParsedArgumentSpec) (fs : List LarkTree)
    (out : List String) (pos : Nat)
    (h : ∀ f ∈ fs,
      fieldNoMatch (specs.map fun sp => rootArgumentName sp.argument_ref) f =
        true) :
    RewritedocString.info_fields_loop (mkRewritedocString source specs) fs
      out pos = some (out, pos) := by
  induction fs with
  | nil => rfl
  | cons f fs ih =>
    simp only [RewritedocString.info_fields_loop]
    rw [info_field_no_match source specs f out pos
      (h f (List.mem_cons_self _ _))]
    exact ih (fun f2 h2 => h f2 (List.mem_cons_of_mem _ h2))

/-- C3: when no parameter field's argument name and no returns field
matches any supplied spec's root argument name, the docstring rewrite
returns the original text exactly. -/
theorem rewrite_no_match_identity (specs : List ParsedArgumentSpec)
    (source : String) (tree docsT fieldsT : LarkTree)
    (h1 : tree.data = "docstring")
    (h2 : _tree_children tree = [docsT, fieldsT])
    (h3 : fieldsT.data = "info_fields")
    (h4 : (_tree_children fieldsT).all
      (fieldNoMatch (specs.map fun sp => rootArgumentName sp.argument_ref)) =
      true) :
    RewritedocString.docstring (mkRewritedocString source specs) tree =
      some source := by
  have hloop : RewritedocString.info_fields_loop
      (mkRewritedocString source specs) (_tree_children fieldsT) [] 0 =
      some ([], 0) := by
    refine info_fields_loop_no_match source specs _ [] 0 ?_
    intro f hf
    exact List.all_eq_true.mp h4 f hf
  simp only [RewritedocString.docstring, h1, if_pos, h2]
  simp only [RewritedocString.info_fields, h3, if_pos, hloop]
  rw [pyDropFrom_zero, List.nil_append, str_join_singleton]
  rfl

/-- Witness for C3: a docstring whose only parameter field names
`"other"` while the sole spec constrains `"x"`. -/
theorem rewrite_no_match_identity_witness :
    RewritedocString.docstring
      (mkRewritedocString ":param other: stuff"
        [⟨.root "x", ⟨[⟨some 3, none, false⟩]⟩⟩])
      (.node "docstring" ⟨0, 19⟩
        [.inl (.node "docs" ⟨0, 0⟩ []),
         .inl (.node "info_fields" ⟨0, 19⟩
           [.inl (.node "info_field_param" ⟨0, 19⟩
             [.inl (.node "info_field_args" ⟨7, 12⟩ [.inr "other"]),
              .inl (.node "docs" ⟨14, 19⟩ [])])])]) =
      some ":param other: stuff" :=
  rewrite_no_match_identity _ _ _ (.node "docs" ⟨0, 0⟩ [])
    (.node "info_fields" ⟨0, 19⟩
      [.inl (.node "info_field_param" ⟨0, 19⟩
        [.inl (.node "info_field_args" ⟨7, 12⟩ [.inr "other"]),
         .inl (.node "docs" ⟨14, 19⟩ [])])])
    rfl rfl rfl (by decide)

theorem min_ite (w a : Nat) : (if w < a then w else a) = min w a := by
  rcases Nat.lt_or_ge w a with h | h
  · rw [if_pos h, Nat.min_eq_left (Nat.le_of_lt h)]
  · rw [if_neg (Nat.not_lt.mpr h), Nat.min_eq_right h]

theorem guessIndentLoop_none (lines : List String) :
    guessIndentLoop lines none = specMinimum (widthsOfLines lines) ∧
    ∀ a : Nat, guessIndentLoop lines (some a) =
      match specMinimum (widthsOfLines lines) with
      | none => some a
      | some m => some (min a m) := by
  induction lines with
  | nil => exact ⟨rfl, fun a => rfl⟩
  | cons line rest ih =>
    by_cases hb : strIsEmpty (lstrip line) = true
    · have hw : widthsOfLines (line :: rest) = widthsOfLines rest := by
        simp [widthsOfLines, hb]
      constructor
      · rw [guessIndentLoop, if_pos hb, hw]
        exact ih.1
      · intro a
        rw [guessIndentLoop, if_pos hb, hw]
        exact ih.2 a
    · have hw : widthsOfLines (line :: rest) =
          (line.length - (lstrip line).length) :: widthsOfLines rest := by
        simp [widthsOfLines, hb]
      constructor
      · rw [guessIndentLoop, if_neg hb, hw, specMinimum]
        exact ih.2 _
      · intro a
        rw [guessIndentLoop, if_neg hb, hw, specMinimum]
        refine Eq.trans (ih.2 _) ?_
        cases hsm : specMinimum (widthsOfLines rest) with
        | none =>
          refine congrArg some ?_
          rw [min_ite]
          omega
        | some m =>
          refine congrArg some ?_
          rw [min_ite]
          omega

/-- C6: base-indentation inference returns the minimum leading-whitespace
width (after tab expansion) over all non-blank lines excluding the first,
and `none` (absent, not zero) when no such line exists; and
`_insert_spec_lines` indents inserted spec lines by the field docs text's
own inferred indentation when present, else the base indentation plus 4,
else 4. -/
theorem indent_inference_correct :
    (∀ s : String, _guess_indent s = specMinimum (specIndentWidths s))
    ∧ (∀ s : String, specIndentWidths s = [] → _guess_indent s = none)
    ∧ (∀ (source : String) (indent : Option Nat) (out : List String)
        (pos : Nat) (spec_lines : List String) (docs : LarkTree),
        _insert_spec_lines source indent out pos spec_lines docs =
          (out ++ [specLeading source pos docs] ++
            (spec_lines.map
              (fun l => [specIndentStr source indent pos docs, l])).flatten ++
            ["\n", specIndentStr source indent pos docs,
             lstrip (specDocsStr source pos docs)],
           docs.meta.end_pos)) := by
  have hmain : ∀ s : String,
      _guess_indent s = specMinimum (specIndentWidths s) := by
    intro s
    unfold _guess_indent specIndentWidths
    exact (guessIndentLoop_none _).1
  refine ⟨hmain, fun s h => by rw [hmain, h]; rfl, ?_⟩
  intro source indent out pos spec_lines docs
  unfold _insert_spec_lines specIndentStr specChosenIndent specDocsStr
    specLeading
  cases hg : _guess_indent (pySlice source
      (pos + (rstrip (pySlice source pos docs.meta.start_pos)).length)
      docs.meta.end_pos) with
  | none => cases indent <;> simp [hg, List.append_assoc]
  | some i => cases indent <;> simp [hg, List.append_assoc]

/-- Witness for C6: a single-line docstring has no line besides the
first, so its inferred indentation is absent. -/
theorem indent_inference_correct_witness : _guess_indent "abc" = none :=
  indent_inference_correct.2.1 "abc" (by decide)

/-- C10: a parameter field's spec lines are looked up under the value of
the field node's last token child, and a parameter field with no token
children is keyed by the empty string: it can only match a spec group
with an empty root argument name, and the rewrite still completes. -/
theorem info_field_args_key :
    (∀ t : LarkTree, t.data = "info_field_args" →
      RewritedocString.info_field_args t =
        some ((_token_children t).getLast?.getD ""))
    ∧ (∀ (source : String) (specs : List ParsedArgumentSpec) (m : TreeMeta)
        (argsT docsT : LarkTree) (out : List String) (pos : Nat),
        argsT.data = "info_field_args" → _token_children argsT = [] →
        (RewritedocString.info_field (mkRewritedocString source specs)
          (.node "info_field_param" m [.inl argsT, .inl docsT]) out
          pos).isSome = true
        ∧ ((∀ sp ∈ specs, rootArgumentName sp.argument_ref ≠ "") →
          RewritedocString.info_field (mkRewritedocString source specs)
            (.node "info_field_param" m [.inl argsT, .inl docsT]) out pos =
            some (out, pos))) := by
  have hargs : ∀ t : LarkTree, t.data = "info_field_args" →
      RewritedocString.info_field_args t =
        some ((_token_children t).getLast?.getD "") := by
    intro t h
    unfold RewritedocString.info_field_args
    rw [if_pos h]
    cases hl : (_token_children t).getLast? <;> simp [hl]
  refine ⟨hargs, ?_⟩
  intro source specs m argsT docsT out pos hA hTok
  have hempty : RewritedocString.info_field_args argsT = some "" := by
    rw [hargs argsT hA, hTok]
    rfl
  have htc : _tree_children
      (.node "info_field_param" m [.inl argsT, .inl docsT]) =
      [argsT, docsT] := rfl
  constructor
  · cases hd : dictGet (mkRewritedocString source specs).spec_lines "" with
    | none =>
      simp [RewritedocString.info_field, LarkTree.data, htc, hempty, hd]
    | some ls =>
      cases ls <;>
        simp [RewritedocString.info_field, LarkTree.data, htc, hempty, hd]
  · intro hroot
    have hd : dictGet (mkRewritedocString source specs).spec_lines "" =
        none := dictGet_spec_lines_none specs "" hroot
    simp [RewritedocString.info_field, LarkTree.data, htc, hempty, hd]

/-- Witness for C10: a parameter field with an empty argument-name node
against a spec constraining `"x"`. -/
theorem info_field_args_key_witness :
    (RewritedocString.info_field
      (mkRewritedocString ":param : stuff"
        [⟨.root "x", ⟨[⟨some 3, none, false⟩]⟩⟩])
      (.node "info_field_param" ⟨0, 14⟩
        [.inl (.node "info_field_args" ⟨7, 7⟩ []),
         .inl (.node "docs" ⟨9, 14⟩ [])]) [] 0).isSome = true
    ∧ RewritedocString.info_field
        (mkRewritedocString ":param : stuff"
          [⟨.root "x", ⟨[⟨some 3, none, false⟩]⟩⟩])
        (.node "info_field_param" ⟨0, 14⟩
          [.inl (.node "info_field_args" ⟨7, 7⟩ []),
           .inl (.node "docs" ⟨9, 14⟩ [])]) [] 0 = some ([], 0) := by
  have h := info_field_args_key.2 ":param : stuff"
    [⟨.root "x", ⟨[⟨some 3, none, false⟩]⟩⟩] ⟨0, 14⟩
    (.node "info_field_args" ⟨7, 7⟩ []) (.node "docs" ⟨9, 14⟩ []) [] 0
    rfl rfl
  exact ⟨h.1, h.2 (by decide)⟩

theorem filter_nws_dropWhile (l : List Char) :
    (l.dropWhile pyIsSpace).filter (fun c => !pyIsSpace c) =
      l.filter (fun c => !pyIsSpace c) := by
  induction l with
  | nil => rfl
  | cons c rest ih =>
    by_cases h : pyIsSpace c = true
    · simp [List.dropWhile_cons, List.filter_cons, h, ih]
    · simp [List.dropWhile_cons, List.filter_cons, h]

theorem filter_nws_lstrip (s : String) :
    (lstrip s).data.filter (fun c => !pyIsSpace c) =
      s.data.filter (fun c => !pyIsSpace c) :=
  filter_nws_dropWhile s.data

theorem rstrip_append (s : String) :
    ∃ t : List Char, s.data = (rstrip s).data ++ t ∧
      ∀ c ∈ t, pyIsSpace c = true := by
  refine ⟨(s.data.reverse.takeWhile pyIsSpace).reverse, ?_, ?_⟩
  · show s.data =
      (s.data.reverse.dropWhile pyIsSpace).reverse ++
        (s.data.reverse.takeWhile pyIsSpace).reverse
    rw [← List.reverse_append, List.takeWhile_append_dropWhile,
      List.reverse_reverse]
  · intro c hc
    rw [List.mem_reverse] at hc
    exact List.mem_takeWhile_imp hc

theorem filter_nws_rstrip (s : String) :
    (rstrip s).data.filter (fun c => !pyIsSpace c) =
      s.data.filter (fun c => !pyIsSpace c) := by
  obtain ⟨t, hs, ht⟩ := rstrip_append s
  rw [hs, List.filter_append]
  have : t.filter (fun c => !pyIsSpace c) = [] := by
    rw [List.filter_eq_nil_iff]
    intro c hc
    simp [ht c hc]
  rw [this, List.append_nil]

theorem rstrip_data_take (s : String) :
    (rstrip s).data = s.data.take (rstrip s).data.length := by
  obtain ⟨t, hs, -⟩ := rstrip_append s
  rw [hs, List.take_left]

theorem pySlice_split (s : String) (a b c : Nat) (h1 : a ≤ b) (h2 : b ≤ c) :
    (pySlice s a c).data = (pySlice s a b).data ++ (pySlice s b c).data := by
  show (s.data.drop a).take (c - a) =
    (s.data.drop a).take (b - a) ++ (s.data.drop b).take (c - b)
  have hc : c - a = (b - a) + (c - b) := by omega
  have hd : (s.data.drop a).drop (b - a) = s.data.drop b := by
    rw [List.drop_drop]
    have hb : a + (b - a) = b := by omega
    rw [hb]
  rw [hc, List.take_add, hd]

theorem take_split (s : String) (a c : Nat) (h : a ≤ c) :
    s.data.take c = s.data.take a ++ (pySlice s a c).data := by
  show _ = _ ++ (s.data.drop a).take (c - a)
  have hc : c = a + (c - a) := by omega
  conv_lhs => rw [hc]
  exact List.take_add _ _ _

theorem insert_spec_lines_eq (source : String) (indent : Option Nat)
    (out : List String) (pos : Nat) (spec_lines : List String)
    (docs : LarkTree) :
    _insert_spec_lines source indent out pos spec_lines docs =
      (out ++ [specLeading source pos docs] ++
        (spec_lines.map
          (fun l => [specIndentStr source indent pos docs, l])).flatten ++
        ["\n", specIndentStr source indent pos docs,
         lstrip (specDocsStr source pos docs)],
       docs.meta.end_pos) := by
  unfold _insert_spec_lines specIndentStr specChosenIndent specDocsStr
    specLeading
  cases hg : _guess_indent (pySlice source
      (pos + (rstrip (pySlice source pos docs.meta.start_pos)).length)
      docs.meta.end_pos) with
  | none => cases indent <;> simp [hg, List.append_assoc]
  | some i => cases indent <;> simp [hg, List.append_assoc]

theorem str_length_eq (s : String) : s.length = s.data.length := rfl

theorem rstrip_slice_take (s : String) (a b : Nat) :
    (rstrip (pySlice s a b)).data =
      (s.data.drop a).take (rstrip (pySlice s a b)).data.length ∧
    (rstrip (pySlice s a b)).data.length ≤ b - a := by
  have hlen : (rstrip (pySlice s a b)).data.length ≤ b - a := by
    obtain ⟨t, hs, -⟩ := rstrip_append (pySlice s a b)
    have h1 : (rstrip (pySlice s a b)).data.length ≤
        (pySlice s a b).data.length := by
      rw [hs]
      simp
    have h2 : (pySlice s a b).data.length ≤ b - a := by
      show ((s.data.drop a).take (b - a)).length ≤ b - a
      simp [List.length_take]
    omega
  refine ⟨?_, hlen⟩
  conv_lhs => rw [rstrip_data_take (pySlice s a b)]
  show ((s.data.drop a).take (b - a)).take _ = _
  rw [List.take_take]
  have hm : min (rstrip (pySlice s a b)).data.length (b - a) =
      (rstrip (pySlice s a b)).data.length := by omega
  rw [hm]

theorem insert_spec_lines_inv (source : String) (indent : Option Nat)
    (out out2 : List String) (pos pos2 : Nat) (lines : List String)
    (docs : LarkTree)
    (h : _insert_spec_lines source indent out pos lines docs = (out2, pos2))
    (hInv : List.Sublist
      ((source.data.take pos).filter (fun c => !pyIsSpace c))
      ((out.map String.data).flatten)) :
    List.Sublist
      ((source.data.take pos2).filter (fun c => !pyIsSpace c))
      ((out2.map String.data).flatten) := by
  rw [insert_spec_lines_eq] at h
  injection h with h1 h2
  subst h1
  subst h2
  have hLdata : (specLeading source pos docs).data =
      (source.data.drop pos).take (specLeading source pos docs).data.length :=
    (rstrip_slice_take source pos docs.meta.start_pos).1
  have hLlen := str_length_eq (specLeading source pos docs)
  simp only [List.map_append, List.flatten_append, List.map_cons,
    List.map_nil, List.flatten_cons, List.flatten_nil, List.append_nil,
    List.append_assoc]
  rcases Nat.le_total docs.meta.end_pos pos with hep | hpe
  · have h1 : source.data.take docs.meta.end_pos =
        (source.data.take pos).take docs.meta.end_pos := by
      rw [List.take_take]
      have hm : min docs.meta.end_pos pos = docs.meta.end_pos := by omega
      rw [hm]
    rw [h1]
    exact (((List.take_sublist _ _).filter _).trans hInv).trans
      (List.sublist_append_left _ _)
  · rcases Nat.le_total docs.meta.end_pos
        (pos + (specLeading source pos docs).length) with heds | hdse
    · rw [take_split source pos docs.meta.end_pos hpe, List.filter_append]
      refine hInv.append ?_
      have hslice : (pySlice source pos docs.meta.end_pos).data =
          (specLeading source pos docs).data.take
            (docs.meta.end_pos - pos) := by
        show (source.data.drop pos).take (docs.meta.end_pos - pos) = _
        conv_rhs => rw [hLdata]
        rw [List.take_take]
        have hm : min (docs.meta.end_pos - pos)
            (specLeading source pos docs).data.length =
            docs.meta.end_pos - pos := by omega
        rw [hm]
      rw [hslice]
      exact (List.filter_sublist _).trans ((List.take_sublist _ _).trans
        (List.sublist_append_left _ _))
    · have hds : pos ≤ pos + (specLeading source pos docs).length :=
        Nat.le_add_right _ _
      rw [take_split source pos docs.meta.end_pos (le_trans hds hdse),
        pySlice_split source pos
          (pos + (specLeading source pos docs).length)
          docs.meta.end_pos hds hdse]
      simp only [List.filter_append, List.append_assoc]
      have hfirst : (pySlice source pos
          (pos + (specLeading source pos docs).length)).data =
          (specLeading source pos docs).data := by
        show (source.data.drop pos).take
            (pos + (specLeading source pos docs).length - pos) = _
        conv_rhs => rw [hLdata]
        congr 1
        omega
      rw [hfirst]
      have hsecond : (pySlice source
          (pos + (specLeading source pos docs).length)
          docs.meta.end_pos).data.filter (fun c => !pyIsSpace c) =
          (lstrip (specDocsStr source pos docs)).data.filter
            (fun c => !pyIsSpace c) :=
        (filter_nws_lstrip (specDocsStr source pos docs)).symm
      rw [hsecond]
      refine hInv.append ((List.filter_sublist _).append ?_)
      refine (List.filter_sublist _).trans ?_
      exact ((List.sublist_append_right _ _).trans
        (List.sublist_append_right _ _)).trans
        (List.sublist_append_right _ _)

theorem info_field_inv (rws : RewritedocString) (f : LarkTree)
    (out out2 : List String) (pos pos2 : Nat)
    (h : RewritedocString.info_field rws f out pos = some (out2, pos2))
    (hInv : List.Sublist
      ((rws.source.data.take pos).filter (fun c => !pyIsSpace c))
      ((out.map String.data).flatten)) :
    List.Sublist
      ((rws.source.data.take pos2).filter (fun c => !pyIsSpace c))
      ((out2.map String.data).flatten) := by
  unfold RewritedocString.info_field at h
  split_ifs at h
  · split at h
    · split at h
      · exact Option.noConfusion h
      · split at h
        · exact insert_spec_lines_inv rws.source rws.indent out out2 pos pos2
            _ _ (Option.some.inj h) hInv
        · have hp := Option.some.inj h
          injection hp with ha hb
          subst ha
          subst hb
          exact hInv
    · exact Option.noConfusion h
  · split at h
    · split at h
      · exact insert_spec_lines_inv rws.source rws.indent out out2 pos pos2
          _ _ (Option.some.inj h) hInv
      · have hp := Option.some.inj h
        injection hp with ha hb
        subst ha
        subst hb
        exact hInv
    · exact Option.noConfusion h
  · have hp := Option.some.inj h
    injection hp with ha hb
    subst ha
    subst hb
    exact hInv

theorem info_fields_loop_inv (rws : RewritedocString) (fs : List LarkTree)
    (out out2 : List String) (pos pos2 : Nat)
    (h : RewritedocString.info_fields_loop rws fs out pos = some (out2, pos2))
    (hInv : List.Sublist
      ((rws.source.data.take pos).filter (fun c => !pyIsSpace c))
      ((out.map String.data).flatten)) :
    List.Sublist
      ((rws.source.data.take pos2).filter (fun c => !pyIsSpace c))
      ((out2.map String.data).flatten) := by
  induction fs generalizing out pos with
  | nil =>
    simp only [RewritedocString.info_fields_loop] at h
    have hp := Option.some.inj h
    injection hp with ha hb
    subst ha
    subst hb
    exact hInv
  | cons f fs ih =>
    simp only [RewritedocString.info_fields_loop] at h
    cases hf : RewritedocString.info_field rws f out pos with
    | none =>
      rw [hf] at h
      exact Option.noConfusion h
    | some op =>
      obtain ⟨o, p⟩ := op
      rw [hf] at h
      exact ih o p h (info_field_inv rws f out o pos p hf hInv)

/-- C2 (amended): the docstring rewrite preserves every non-whitespace
character of the original text, unchanged and in order (whitespace at a
matched field's insertion point may be replaced by the inserted
indentation). -/
theorem rewrite_preserves_nonwhitespace (rws : RewritedocString)
    (tree : LarkTree) (res : String)
    (h : RewritedocString.docstring rws tree = some res) :
    List.Sublist (rws.source.data.filter (fun c => !pyIsSpace c)) res.data := by
  unfold RewritedocString.docstring at h
  split_ifs at h
  · split at h
    · split at h
      · exact Option.noConfusion h
      · rename_i out pos heq
        have hres := Option.some.inj h
        subst hres
        unfold RewritedocString.info_fields at heq
        split_ifs at heq
        · have hInv := info_fields_loop_inv rws _ [] out 0 pos heq (by simp)
          rw [str_join_data]
          simp only [List.map_append, List.flatten_append, List.map_cons,
            List.map_nil, List.flatten_cons, List.flatten_nil,
            List.append_nil]
          conv_lhs => rw [← List.take_append_drop pos rws.source.data]
          rw [List.filter_append]
          exact hInv.append (List.filter_sublist _)
    · exact Option.noConfusion h

/-- C2 (counterexample): the rewrite does mutate existing characters.
With a tab separating the parameter-field marker from its text, the
rewritten docstring no longer contains the original text as an in-order
subsequence: the tab is stripped and replaced by the inserted newline
and spaces. -/
theorem rewrite_mutates_separator :
    RewritedocString.docstring
      (mkRewritedocString ":param x:\tdocs"
        [⟨.root "x", ⟨[⟨none, some "n", false⟩]⟩⟩])
      (.node "docstring" ⟨0, 14⟩
        [.inl (.node "docs" ⟨0, 0⟩ []),
         .inl (.node "info_fields" ⟨0, 14⟩
           [.inl (.node "info_field_param" ⟨0, 14⟩
             [.inl (.node "info_field_args" ⟨7, 8⟩ [.inr "x"]),
              .inl (.node "docs" ⟨10, 14⟩ [])])])]) =
      some ":param x:\n    * **x** has shape [*n*].\n\n    docs"
    ∧ ¬ List.Sublist (":param x:\tdocs" : String).data
        (":param x:\n    * **x** has shape [*n*].\n\n    docs" : String).data := by
  constructor
  · decide
  · intro hsub
    have hmem : '\t' ∈
        (":param x:\n    * **x** has shape [*n*].\n\n    docs" : String).data :=
      hsub.subset (by decide)
    exact absurd hmem (by decide)

/-- Witness for C2's amended theorem at the tab-separated docstring. -/
theorem rewrite_preserves_nonwhitespace_witness :
    List.Sublist
      ((":param x:\tdocs" : String).data.filter (fun c => !pyIsSpace c))
      (":param x:\n    * **x** has shape [*n*].\n\n    docs" : String).data :=
  rewrite_preserves_nonwhitespace
    (mkRewritedocString ":param x:\tdocs"
      [⟨.root "x", ⟨[⟨none, some "n", false⟩]⟩⟩])
    (.node "docstring" ⟨0, 14⟩
      [.inl (.node "docs" ⟨0, 0⟩ []),
       .inl (.node "info_fields" ⟨0, 14⟩
         [.inl (.node "info_field_param" ⟨0, 14⟩
           [.inl (.node "info_field_args" ⟨7, 8⟩ [.inr "x"]),
            .inl (.node "docs" ⟨10, 14⟩ [])])])])
    ":param x:\n    * **x** has shape [*n*].\n\n    docs" (by decide)

theorem setAdd_ne_nil (m : List String) (k : String) : setAdd m k ≠ [] := by
  unfold setAdd
  split_ifs with h
  · cases m with
    | nil => simp at h
    | cons a as => simp
  · simp

theorem popKey_fst (u : List (String × String)) (k : String) :
    (popKey u k).1 = dictGet u k := by
  induction u with
  | nil => rfl
  | cons kv rest ih =>
    obtain ⟨k1, v⟩ := kv
    by_cases h : k1 = k <;> simp [popKey, dictGet, h, ih]

theorem popKey_snd_dictGet (u : List (String × String)) (k x : String)
    (h : k ≠ x) : dictGet (popKey u k).2 x = dictGet u x := by
  induction u with
  | nil => rfl
  | cons kv rest ih =>
    obtain ⟨k1, v⟩ := kv
    by_cases h1 : k1 = k
    · subst h1
      simp [popKey, dictGet, h]
    · by_cases h2 : k1 = x
      · subst h2
        simp [popKey, dictGet, h1]
      · simp [popKey, dictGet, h1, h2, ih]

theorem popKey_snd_none (u : List (String × String)) (k x : String)
    (h : dictGet u x = none) : dictGet (popKey u k).2 x = none := by
  induction u with
  | nil => rfl
  | cons kv rest ih =>
    obtain ⟨k1, v⟩ := kv
    by_cases h2 : k1 = x
    · subst h2
      simp [dictGet] at h
    · by_cases h1 : k1 = k
      · subst h1
        simp only [dictGet, if_neg h2] at h
        simp [popKey, dictGet, h2, h]
      · simp only [dictGet, if_neg h2] at h
        simp [popKey, dictGet, h1, h2, ih h]

theorem popKey_mem (u : List (String × String)) (k : String)
    (kv : String × String) (hm : kv ∈ u) (hne : kv.1 ≠ k) :
    kv ∈ (popKey u k).2 := by
  induction u with
  | nil => cases hm
  | cons kv1 rest ih =>
    obtain ⟨k1, v⟩ := kv1
    rcases List.mem_cons.mp hm with heq | htail
    · subst heq
      simp only at hne
      simp [popKey, hne]
    · by_cases h1 : k1 = k
      · subst h1
        simp only [popKey, if_pos rfl]
        exact htail
      · simp only [popKey, if_neg h1]
        exact List.mem_cons_of_mem _ (ih htail)

theorem dictGet_dictInsert_eq (r : List (String × String))
    (k v : String) : dictGet (dictInsert r k v) k = some v := by
  induction r with
  | nil => simp [dictInsert, dictGet]
  | cons kv rest ih =>
    obtain ⟨k1, v1⟩ := kv
    by_cases h : k1 = k <;> simp [dictInsert, dictGet, h, ih]

theorem dictGet_dictInsert_ne (r : List (String × String))
    (k v x : String) (h : k ≠ x) :
    dictGet (dictInsert r k v) x = dictGet r x := by
  induction r with
  | nil => simp [dictInsert, dictGet, h]
  | cons kv rest ih =>
    obtain ⟨k1, v1⟩ := kv
    by_cases h1 : k1 = k
    · subst h1
      simp [dictInsert, dictGet, h]
    · by_cases h2 : k1 = x
      · subst h2
        simp [dictInsert, dictGet, h1, Ne.symm h]
      · simp [dictInsert, dictGet, h1, h2, ih]

theorem ctdLoop_missing_ne (ts : List TerminalDef) (m : List String)
    (u r : List (String × String)) (hm : m ≠ []) :
    (ctdLoop ts m u r).1 ≠ [] := by
  induction ts generalizing m u r with
  | nil => simpa [ctdLoop] using hm
  | cons t ts ih =>
    cases hp : t.pattern with
    | patternStr v =>
      simp only [ctdLoop, hp]
      exact ih _ _ _ hm
    | patternRE v =>
      simp only [ctdLoop, hp]
      cases hpop : (popKey u t.name).1 with
      | none =>
        simp only [hpop]
        exact ih _ _ _ (setAdd_ne_nil m t.name)
      | some d =>
        simp only [hpop]
        exact ih _ _ _ hm

theorem ctdLoop_unused_mem (ts : List TerminalDef) (m : List String)
    (u r : List (String × String)) (kv : String × String) (hm : kv ∈ u)
    (h : ∀ t ∈ ts, t.name ≠ kv.1) : kv ∈ (ctdLoop ts m u r).2.1 := by
  induction ts generalizing m u r with
  | nil => simpa [ctdLoop] using hm
  | cons t ts ih =>
    have hne : t.name ≠ kv.1 := h t (List.mem_cons_self _ _)
    have htail : ∀ t2 ∈ ts, t2.name ≠ kv.1 :=
      fun t2 h2 => h t2 (List.mem_cons_of_mem _ h2)
    cases hp : t.pattern with
    | patternStr v =>
      simp only [ctdLoop, hp]
      exact ih _ _ _ hm htail
    | patternRE v =>
      simp only [ctdLoop, hp]
      cases hpop : (popKey u t.name).1 with
      | none =>
        simp only [hpop]
        exact ih _ _ _ (popKey_mem u t.name kv hm (Ne.symm hne)) htail
      | some d =>
        simp only [hpop]
        exact ih _ _ _ (popKey_mem u t.name kv hm (Ne.symm hne)) htail

theorem ctdLoop_re_missing (ts : List TerminalDef) (m : List String)
    (u r : List (String × String)) (t : TerminalDef) (v : String)
    (hmem : t ∈ ts) (hre : t.pattern = .patternRE v)
    (hu : dictGet u t.name = none) : (ctdLoop ts m u r).1 ≠ [] := by
  induction ts generalizing m u r with
  | nil => cases hmem
  | cons t0 ts ih =>
    rcases List.mem_cons.mp hmem with heq | htail
    · subst heq
      simp only [ctdLoop, hre]
      have hpop : (popKey u t.name).1 = none := by
        rw [popKey_fst]
        exact hu
      simp only [hpop]
      exact ctdLoop_missing_ne _ _ _ _ (setAdd_ne_nil m t.name)
    · cases hp : t0.pattern with
      | patternStr v0 =>
        simp only [ctdLoop, hp]
        exact ih _ _ _ htail hu
      | patternRE v0 =>
        simp only [ctdLoop, hp]
        cases hpop : (popKey u t0.name).1 with
        | none =>
          simp only [hpop]
          exact ctdLoop_missing_ne _ _ _ _ (setAdd_ne_nil m t0.name)
        | some d =>
          simp only [hpop]
          exact ih _ _ _ htail (popKey_snd_none u t0.name t.name hu)

theorem ctdLoop_result_stable (ts : List TerminalDef) (m : List String)
    (u r : List (String × String)) (k : String)
    (h : ∀ t ∈ ts, t.name ≠ k) :
    dictGet (ctdLoop ts m u r).2.2 k = dictGet r k := by
  induction ts generalizing m u r with
  | nil => rfl
  | cons t ts ih =>
    have hne : t.name ≠ k := h t (List.mem_cons_self _ _)
    have htail : ∀ t2 ∈ ts, t2.name ≠ k :=
      fun t2 h2 => h t2 (List.mem_cons_of_mem _ h2)
    cases hp : t.pattern with
    | patternStr v =>
      simp only [ctdLoop, hp]
      rw [ih _ _ _ htail, dictGet_dictInsert_ne _ _ _ _ hne]
    | patternRE v =>
      cases hpop : (popKey u t.name).1 with
      | none =>
        simp only [ctdLoop, hp, hpop]
        rw [ih _ _ _ htail, dictGet_dictInsert_ne _ _ _ _ hne]
      | some d =>
        simp only [ctdLoop, hp, hpop]
        rw [ih _ _ _ htail, dictGet_dictInsert_ne _ _ _ _ hne]

theorem ctdLoop_result_lookup (ts : List TerminalDef) (m : List String)
    (u r : List (String × String))
    (hnd : (ts.map TerminalDef.name).Nodup) (t : TerminalDef)
    (hmem : t ∈ ts) :
    (∀ v, t.pattern = .patternStr v →
      dictGet (ctdLoop ts m u r).2.2 t.name = some ("\x22" ++ v ++ "\x22"))
    ∧ (∀ v d, t.pattern = .patternRE v → dictGet u t.name = some d →
        dictGet (ctdLoop ts m u r).2.2 t.name =
          some (d ++ " (re=" ++ v ++ ")")) := by
  induction ts generalizing m u r with
  | nil => cases hmem
  | cons t0 ts ih =>
    obtain ⟨hnotm, hndt⟩ := List.nodup_cons.mp hnd
    rcases List.mem_cons.mp hmem with heq | htail
    · subst heq
      have hstable : ∀ (m2 : List String) (u2 r2 : List (String × String)),
          dictGet (ctdLoop ts m2 u2 r2).2.2 t.name = dictGet r2 t.name := by
        intro m2 u2 r2
        refine ctdLoop_result_stable ts m2 u2 r2 t.name ?_
        intro t2 h2 he
        exact hnotm (he ▸ List.mem_map_of_mem TerminalDef.name h2)
      constructor
      · intro v hv
        simp only [ctdLoop, hv]
        rw [hstable, dictGet_dictInsert_eq]
      · intro v d hv hu
        simp only [ctdLoop, hv]
        have hpop : (popKey u t.name).1 = some d := by
          rw [popKey_fst]
          exact hu
        simp only [hpop]
        rw [hstable, dictGet_dictInsert_eq]
    · have hne0 : t0.name ≠ t.name := by
        intro he
        exact hnotm (he ▸ List.mem_map_of_mem TerminalDef.name htail)
      cases hp : t0.pattern with
      | patternStr v0 =>
        simp only [ctdLoop, hp]
        exact ih _ _ _ hndt htail
      | patternRE v0 =>
        simp only [ctdLoop, hp]
        have hu2 : dictGet (popKey u t0.name).2 t.name = dictGet u t.name :=
          popKey_snd_dictGet u t0.name t.name hne0
        cases hpop : (popKey u t0.name).1 with
        | none =>
          simp only [hpop]
          have H := ih (setAdd m t0.name) (popKey u t0.name).2
            (dictInsert r t0.name "ERROR") hndt htail
          exact ⟨H.1, fun v d hv hu => H.2 v d hv (hu2.trans hu)⟩
        | some d0 =>
          simp only [hpop]
          have H := ih m (popKey u t0.name).2
            (dictInsert r t0.name (d0 ++ " (re=" ++ v0 ++ ")")) hndt htail
          exact ⟨H.1, fun v d hv hu => H.2 v d hv (hu2.trans hu)⟩

theorem create_terminal_descriptions_eq (terminals : List TerminalDef)
    (ds : List (String × String)) (ms : List String)
    (us rs : List (String × String))
    (hloop : ctdLoop terminals [] ds [] = (ms, us, rs)) :
    _create_terminal_descriptions terminals ds =
      if us.isEmpty then (if ms.isEmpty then some rs else none)
      else none := by
  unfold _create_terminal_descriptions
  rw [hloop]

/-- C9: building the terminal-description table fails when a pattern
terminal of the grammar has no supplied description, or when a
description is supplied for a name that is not a terminal of the
grammar; on success every terminal is described — literal terminals by
quoting the literal, pattern terminals using the supplied text. -/
theorem terminal_descriptions_correct (terminals : List TerminalDef)
    (ds : List (String × String)) :
    (∀ t ∈ terminals, ∀ v, t.pattern = .patternRE v →
      dictGet ds t.name = none →
      _create_terminal_descriptions terminals ds = none)
    ∧ (∀ kv ∈ ds, (∀ t ∈ terminals, t.name ≠ kv.1) →
        _create_terminal_descriptions terminals ds = none)
    ∧ (∀ result, _create_terminal_descriptions terminals ds = some result →
        (terminals.map TerminalDef.name).Nodup →
        ∀ t ∈ terminals,
          (∀ v, t.pattern = .patternStr v →
            dictGet result t.name = some ("\x22" ++ v ++ "\x22"))
          ∧ (∀ v, t.pattern = .patternRE v → ∃ d,
              dictGet ds t.name = some d ∧
              dictGet result t.name = some (d ++ " (re=" ++ v ++ ")"))) := by
  refine ⟨?_, ?_, ?_⟩
  · intro t hm v hv hnone
    have hms := ctdLoop_re_missing terminals [] ds [] t v hm hv hnone
    rcases hloop : ctdLoop terminals [] ds [] with ⟨ms, us, rs⟩
    rw [hloop] at hms
    rw [create_terminal_descriptions_eq terminals ds ms us rs hloop]
    split_ifs with h1 h2
    · exact absurd (List.isEmpty_iff.mp h2) hms
    · rfl
    · rfl
  · intro kv hkv hnot
    have hus := ctdLoop_unused_mem terminals [] ds [] kv hkv hnot
    rcases hloop : ctdLoop terminals [] ds [] with ⟨ms, us, rs⟩
    rw [hloop] at hus
    rw [create_terminal_descriptions_eq terminals ds ms us rs hloop]
    split_ifs with h1 h2
    · exact absurd (List.isEmpty_iff.mp h1) (List.ne_nil_of_mem hus)
    · exact absurd (List.isEmpty_iff.mp h1) (List.ne_nil_of_mem hus)
    · rfl
  · intro result hres hnd t hmem
    rcases hloop : ctdLoop terminals [] ds [] with ⟨ms, us, rs⟩
    rw [create_terminal_descriptions_eq terminals ds ms us rs hloop] at hres
    split_ifs at hres with h1 h2
    have hrs := Option.some.inj hres
    subst hrs
    constructor
    · intro v hv
      have H := (ctdLoop_result_lookup terminals [] ds [] hnd t hmem).1 v hv
      rw [hloop] at H
      exact H
    · intro v hv
      cases hu : dictGet ds t.name with
      | none =>
        exfalso
        have hms := ctdLoop_re_missing terminals [] ds [] t v hmem hv hu
        rw [hloop] at hms
        exact hms (List.isEmpty_iff.mp h2)
      | some d =>
        have H := (ctdLoop_result_lookup terminals [] ds [] hnd t
          hmem).2 v d hv hu
        rw [hloop] at H
        exact ⟨d, rfl, H⟩

/-- Witness for C9: a grammar with one pattern terminal and no supplied
description is rejected. -/
theorem terminal_descriptions_correct_witness :
    _create_terminal_descriptions [⟨"INT", .patternRE "[0-9]+"⟩] [] = none :=
  (terminal_descriptions_correct [⟨"INT", .patternRE "[0-9]+"⟩] []).1
    ⟨"INT", .patternRE "[0-9]+"⟩ (List.mem_singleton.mpr rfl) "[0-9]+" rfl rfl
